import Mathlib

/-!
Verification development for the CSV ingestion pipeline of the
job-bank-labour-insights repository (file src/ingest.py).

The pipeline is embedded shallowly:

* a pandas DataFrame becomes a Table: a list of column names (duplicates
  allowed, exactly as in pandas) together with a list of rows, each row
  listing its cells in column order.  Row identity is positional, which
  models a DataFrame carrying the default RangeIndex; concatenation with
  ignore_index=True is therefore modelled by plain list concatenation of
  the row lists.
* a raw CSV file becomes a RawFile: its file name (base name with
  extension), its stem (base name without extension), and, for every
  candidate text encoding, the outcome of the pandas CSV parser on the
  bytes of the file under that encoding (none models a raised decoding
  or parse error, some t models a successfully parsed table).
* the logging sink becomes an explicit list of leveled messages returned
  next to each result.
* Python string operations (str.split, the in operator, len, the pandas
  column rewrite .str.lower().str.strip(), and the *.csv glob test) are
  implemented over the underlying character lists, mirroring their
  Python semantics on the ASCII range.
-/

namespace JobBank

/-- A cell of a table: either the null marker (pandas NA / NaN) or a present
value.  The pipeline treats cell contents opaquely, so a string payload
suffices. -/
inductive Cell where
  | na : Cell
  | val : String → Cell
  deriving DecidableEq

/-- An in-memory table with named columns, modelling a pandas DataFrame.
Duplicate column names are allowed, as in pandas. -/
structure Table where
  cols : List String
  rows : List (List Cell)
  deriving DecidableEq

/-- Severity of a log message, mirroring logging.INFO / WARNING / ERROR. -/
inductive LogLevel where
  | info : LogLevel
  | warning : LogLevel
  | error : LogLevel
  deriving DecidableEq

/-- One leveled message sent to the logging sink. -/
structure LogMsg where
  level : LogLevel
  msg : String
  deriving DecidableEq

/-- The fixed list REQUIRED_COLUMNS of src/ingest.py (lines 28-36). -/
def REQUIRED_COLUMNS : List String :=
  ["job_title", "noc", "naics", "province", "city", "vacancies", "salary"]

/-- Removal of trailing whitespace characters from a character list. -/
def dropTrailingWs (l : List Char) : List Char :=
  (l.reverse.dropWhile Char.isWhitespace).reverse

/-- Removal of leading and trailing whitespace characters, modelling the
Python str.strip applied by pandas .str.strip(). -/
def stripChars (l : List Char) : List Char :=
  dropTrailingWs (l.dropWhile Char.isWhitespace)

/-- The column-name rewrite df.columns.str.lower().str.strip() of
src/ingest.py line 74: lower-case every character, then strip leading and
trailing whitespace.  Implemented over the underlying character list of the
string (ASCII lowering, as core Char.toLower). -/
def normalizeName (s : String) : String :=
  String.mk (stripChars (s.data.map Char.toLower))

/-- The warning emitted by normalize_schema for one absent required column
(src/ingest.py line 78).  The message names the column being filled. -/
def warnMissing (c : String) : LogMsg :=
  ⟨LogLevel.warning, "Missing column " ++ c ++ " - filling with NA"⟩

/-- One step of the loop of normalize_schema (src/ingest.py lines 76-79):
if the column is already present nothing happens, otherwise a new column of
that name is appended, every row is extended with the null marker, and the
warning is logged. -/
def addMissing (st : Table × List LogMsg) (col : String) : Table × List LogMsg :=
  if col ∈ st.1.cols then st
  else (⟨st.1.cols ++ [col], st.1.rows.map (fun r => r ++ [Cell.na])⟩,
        st.2 ++ [warnMissing col])

/-- The function normalize_schema of src/ingest.py (lines 69-81): rewrite all
column names with normalizeName, then walk REQUIRED_COLUMNS and append each
absent one as an all-null column, logging one warning per appended column. -/
def normalize_schema (df : Table) : Table × List LogMsg :=
  REQUIRED_COLUMNS.foldl addMissing (⟨df.cols.map normalizeName, df.rows⟩, [])

/-- Splitting of a character list at every occurrence of the delimiter,
modelling Python str.split with a one-character separator: empty pieces are
kept and the result is never empty. -/
def splitOnChar (d : Char) : List Char → List (List Char)
  | [] => [[]]
  | c :: rest =>
    match splitOnChar d rest with
    | [] => [[]]
    | h :: t => if c == d then [] :: h :: t else (c :: h) :: t

/-- The acceptance test of src/ingest.py line 62 for one underscore-separated
token of the stem: it must contain a hyphen and consist of exactly 7
characters.  No calendar validation happens. -/
def isMonthToken (p : List Char) : Bool :=
  p.contains '-' && p.length == 7

/-- The four candidate encodings of src/ingest.py line 85, in source order:
utf-8, utf-16, cp1252 (Windows-1252), latin1 (Latin-1). -/
inductive Encoding where
  | utf8 : Encoding
  | utf16 : Encoding
  | cp1252 : Encoding
  | latin1 : Encoding
  deriving DecidableEq

/-- The name of the encoding as it appears in the source list and in the
info log line. -/
def encodingName : Encoding → String
  | Encoding.utf8 => "utf-8"
  | Encoding.utf16 => "utf-16"
  | Encoding.cp1252 => "cp1252"
  | Encoding.latin1 => "latin1"

/-- The candidate list encodings of src/ingest.py line 85, in order. -/
def encodingList : List Encoding :=
  [Encoding.utf8, Encoding.utf16, Encoding.cp1252, Encoding.latin1]

/-- A raw CSV file: its base name with extension (Path.name), its stem
(Path.stem), and the outcome of the pandas CSV parser on its bytes under
each candidate encoding; none models a raised decoding or parse error. -/
structure RawFile where
  name : String
  stem : String
  parse : Encoding → Option Table

/-- The function extract_month_from_filename of src/ingest.py (lines 54-66):
split the stem on underscores and return the first token containing a hyphen
and of length exactly 7; otherwise log a warning naming the file and return
the sentinel "unknown". -/
def extract_month_from_filename (f : RawFile) : String × List LogMsg :=
  match (splitOnChar '_' f.stem.data).find? isMonthToken with
  | some p => (String.mk p, [])
  | none =>
    ("unknown", [⟨LogLevel.warning, "Could not extract month from " ++ f.name⟩])

/-- Column assignment df[c] = v with a scalar v, as used on src/ingest.py
lines 93-94: when a column of that name exists, every cell in every column
of that name is overwritten with v; otherwise a new column is appended and
every row is extended with v. -/
def setColumn (df : Table) (c : String) (v : Cell) : Table :=
  if c ∈ df.cols then
    ⟨df.cols,
     df.rows.map (fun r => (df.cols.zip r).map (fun p => if p.1 = c then v else p.2))⟩
  else
    ⟨df.cols ++ [c], df.rows.map (fun r => r ++ [v])⟩

/-- The pandas DataFrame.empty test used on src/ingest.py line 123: a table
is empty when it has zero rows or zero columns. -/
def Table.isEmpty (df : Table) : Bool :=
  df.rows.isEmpty || df.cols.isEmpty

/-- The success branch of read_csv_file (src/ingest.py lines 90-96): log the
encoding that worked at info severity, apply normalize_schema, then inject
the provenance columns source_file (the file name) and source_month (the
extracted period token). -/
def decodeSuccess (f : RawFile) (df : Table) (e : Encoding) : Table × List LogMsg :=
  (setColumn (setColumn (normalize_schema df).1 "source_file" (Cell.val f.name))
     "source_month" (Cell.val (extract_month_from_filename f).1),
   ⟨LogLevel.info, "Loaded " ++ f.name ++ " using " ++ encodingName e⟩
     :: ((normalize_schema df).2 ++ (extract_month_from_filename f).2))

/-- The error log emitted when every candidate encoding fails
(src/ingest.py line 101); it names the file. -/
def decodeFailureLog (f : RawFile) : LogMsg :=
  ⟨LogLevel.error, "Could not decode " ++ f.name ++ " with any encoding."⟩

/-- The encoding loop of read_csv_file (src/ingest.py lines 87-102): try the
candidates in order, take the first successful parse, and on exhaustion log
an error naming the file and return the empty table pd.DataFrame(). -/
def tryEncodings (f : RawFile) : List Encoding → Table × List LogMsg
  | [] => (⟨[], []⟩, [decodeFailureLog f])
  | e :: rest =>
    match f.parse e with
    | some df => decodeSuccess f df e
    | none => tryEncodings f rest

/-- The function read_csv_file of src/ingest.py (lines 84-102).  It is total:
no error propagates to the caller. -/
def read_csv_file (f : RawFile) : Table × List LogMsg :=
  tryEncodings f encodingList

/-- The first candidate encoding whose parse succeeds, together with the
parsed table, scanning the given candidate list left to right. -/
def firstParseAux (f : RawFile) : List Encoding → Option (Encoding × Table)
  | [] => none
  | e :: rest =>
    match f.parse e with
    | some df => some (e, df)
    | none => firstParseAux f rest

/-- The first successful parse of a file over the source candidate list. -/
def firstParse (f : RawFile) : Option (Encoding × Table) :=
  firstParseAux f encodingList

/-- The case-sensitive *.csv glob test on a file name: the name ends with
the four characters ".csv".  Implemented over the character list. -/
def hasCsvExt (name : String) : Bool :=
  name.data.reverse.take 4 == ['v', 's', 'c', '.']

/-- The input directory data/raw: whether it exists, and the files found
under it (recursively) by directory traversal, in enumeration order. -/
structure RawDir where
  dirExists : Bool
  allFiles : List RawFile

/-- The discovery step RAW_DATA_PATH.rglob of src/ingest.py line 111: the
files under the directory whose name matches the case-sensitive *.csv
glob, in enumeration order. -/
def csvFiles (d : RawDir) : List RawFile :=
  d.allFiles.filter (fun f => hasCsvExt f.name)

/-- The non-empty per-file tables collected by the loop of src/ingest.py
lines 118-124: decode every discovered file in order and keep the results
that are not empty. -/
def keptTables (d : RawDir) : List Table :=
  ((csvFiles d).map (fun f => (read_csv_file f).1)).filter (fun t => !t.isEmpty)

/-- The two fatal error kinds of ingest_all_files: discoveryError models the
FileNotFoundError raised for a missing directory or an empty glob
(src/ingest.py lines 109 and 114), noValidDataError models the RuntimeError
raised when no file yielded a non-empty table (line 127). -/
inductive IngestError where
  | discoveryError : String → IngestError
  | noValidDataError : String → IngestError
  deriving DecidableEq

/-- Insertion of a column name into an accumulating union, keeping the first
occurrence only. -/
def insertCol (acc : List String) (c : String) : List String :=
  if c ∈ acc then acc else acc ++ [c]

/-- The column set of the concatenation: the union of the column lists of
the tables, ordered by first appearance, as produced by pandas concat. -/
def unionCols (dfs : List Table) : List String :=
  dfs.foldl (fun acc df => df.cols.foldl insertCol acc) []

/-- Alignment of one source row to the union column list: a cell is taken
from the first source column of the wanted name, and is the null marker when
the source table has no column of that name. -/
def extendRow (srcCols : List String) (row : List Cell) (allCols : List String) : List Cell :=
  allCols.map (fun c =>
    match (srcCols.zip row).find? (fun p => p.1 == c) with
    | some p => p.2
    | none => Cell.na)

/-- The concatenation pd.concat(dfs, ignore_index=True) of src/ingest.py
line 131: the union of the column sets, every row aligned to it with null
markers for absent columns, rows in per-table order, and positional
(reset) row indexing. -/
def concatTables (dfs : List Table) : Table :=
  ⟨unionCols dfs,
   (dfs.map (fun df => df.rows.map (fun r => extendRow df.cols r (unionCols dfs)))).flatten⟩

/-- The function ingest_all_files of src/ingest.py (lines 104-135). -/
def ingest_all_files (d : RawDir) : Except IngestError Table :=
  if d.dirExists = false then
    Except.error (IngestError.discoveryError "data/raw directory does not exist.")
  else if (csvFiles d).isEmpty then
    Except.error (IngestError.discoveryError "No CSV files found in data/raw.")
  else if (keptTables d).isEmpty then
    Except.error
      (IngestError.noValidDataError
        "No datasets were loaded. Check file encodings or file integrity.")
  else
    Except.ok (concatTables (keptTables d))

instance : DecidableEq (Except IngestError Table) := fun a b =>
  match a, b with
  | Except.ok x, Except.ok y =>
    if h : x = y then isTrue (by rw [h]) else isFalse (by simp [h])
  | Except.error x, Except.error y =>
    if h : x = y then isTrue (by rw [h]) else isFalse (by simp [h])
  | Except.ok _, Except.error _ => isFalse (by simp)
  | Except.error _, Except.ok _ => isFalse (by simp)

/-- Rectangularity of a table: every row has exactly one cell per column.
Every real DataFrame satisfies this. -/
def WF (df : Table) : Prop :=
  ∀ r ∈ df.rows, r.length = df.cols.length

/-- Every cell lying in a column of the given name is distinct from the null
marker. -/
def colNonNull (df : Table) (c : String) : Prop :=
  ∀ r ∈ df.rows, ∀ q ∈ df.cols.zip r, q.1 = c → q.2 ≠ Cell.na

/-- Every cell lying in a column of the given name holds exactly the given
value. -/
def colAll (df : Table) (c : String) (v : Cell) : Prop :=
  ∀ r ∈ df.rows, ∀ q ∈ df.cols.zip r, q.1 = c → q.2 = v

/-- The required columns that the fold of normalize_schema appends, in order:
walking the required list, a name already present (in the growing column
list) is skipped, an absent one is recorded and added. -/
def missingOf : List String → List String → List String
  | _, [] => []
  | cols, c :: rest =>
    if c ∈ cols then missingOf cols rest else c :: missingOf (cols ++ [c]) rest

/-- Sample table of a first witness file: mixed-case padded column names, a
noc column and a province column, two data rows. -/
def wTable1 : Table :=
  ⟨["Job_Title ", "noc", "province"],
   [[Cell.val "Cook", Cell.val "63200", Cell.val "ON"],
    [Cell.val "Clerk", Cell.val "14100", Cell.val "QC"]]⟩

/-- Sample table of a second witness file: disjoint extra columns and one
data row. -/
def wTable2 : Table :=
  ⟨["job_title", "naics", "city", "vacancies", "salary"],
   [[Cell.val "Cook", Cell.val "72", Cell.val "Ottawa", Cell.val "2",
     Cell.val "40000"]]⟩

/-- Witness file that parses under utf-8 only. -/
def wFile1 : RawFile :=
  ⟨"a_2023-01.csv", "a_2023-01",
   fun e => match e with
     | Encoding.utf8 => some wTable1
     | _ => none⟩

/-- Witness file that parses under latin1 only, exercising the fallback
order. -/
def wFile2 : RawFile :=
  ⟨"b_2023-02.csv", "b_2023-02",
   fun e => match e with
     | Encoding.latin1 => some wTable2
     | _ => none⟩

/-- Witness file that fails under every candidate encoding. -/
def wBad : RawFile := ⟨"bad.csv", "bad", fun _ => none⟩

/-- Witness directory holding the two decodable files. -/
def wDir : RawDir := ⟨true, [wFile1, wFile2]⟩

/-- Witness directory whose only file has an upper-case extension, so the
case-sensitive glob finds nothing. -/
def wDirCaps : RawDir :=
  ⟨true, [⟨"A.CSV", "A", fun _ => some wTable1⟩]⟩

/-- Header-only witness table: one column, zero rows. -/
def wHdr : Table := ⟨["job_title"], []⟩

/-- Witness file that decodes successfully to the header-only table. -/
def wFileHdr : RawFile :=
  ⟨"h_2023-03.csv", "h_2023-03",
   fun e => match e with
     | Encoding.utf8 => some wHdr
     | _ => none⟩

/-- Witness directory holding only the header-only file. -/
def wDirHdr : RawDir := ⟨true, [wFileHdr]⟩

/-- Witness file for the month extractor with two qualifying tokens. -/
def wFileC6 : RawFile :=
  ⟨"report_2023-01_final-x.csv", "report_2023-01_final-x", fun _ => none⟩

/-- Table missing six of the seven required columns, used to compare the
diagnostics produced for two differently named source files. -/
def cexTable : Table := ⟨["job_title"], [[Cell.val "x"]]⟩

/-- First source file for the diagnostics comparison. -/
def cexFileA : RawFile :=
  ⟨"a_2023-01.csv", "a_2023-01",
   fun e => match e with
     | Encoding.utf8 => some cexTable
     | _ => none⟩

/-- Second source file for the diagnostics comparison: same bytes, different
name. -/
def cexFileB : RawFile :=
  ⟨"b_2023-01.csv", "b_2023-01",
   fun e => match e with
     | Encoding.utf8 => some cexTable
     | _ => none⟩

/-!
Characterization of normalize_schema: the fold over REQUIRED_COLUMNS appends
exactly the columns computed by missingOf.
-/

lemma foldl_addMissing (req : List String) (cols : List String)
    (rows : List (List Cell)) (logs : List LogMsg) :
    req.foldl addMissing (⟨cols, rows⟩, logs) =
      (⟨cols ++ missingOf cols req,
        rows.map (fun r => r ++ List.replicate (missingOf cols req).length Cell.na)⟩,
       logs ++ (missingOf cols req).map warnMissing) := by
  induction req generalizing cols rows logs with
  | nil =>
    simp [missingOf]
  | cons c rest ih =>
    rw [List.foldl_cons]
    by_cases h : c ∈ cols
    · simp only [addMissing, if_pos h]
      rw [ih]
      simp [missingOf, h]
    · simp only [addMissing, if_neg h]
      rw [ih]
      simp [missingOf, h, List.append_assoc, List.singleton_append, List.map_map,
        Function.comp, List.replicate_succ, List.length_cons]

lemma normalize_schema_eq (df : Table) :
    normalize_schema df =
      (⟨df.cols.map normalizeName
          ++ missingOf (df.cols.map normalizeName) REQUIRED_COLUMNS,
        df.rows.map (fun r => r ++ List.replicate
          (missingOf (df.cols.map normalizeName) REQUIRED_COLUMNS).length Cell.na)⟩,
       (missingOf (df.cols.map normalizeName) REQUIRED_COLUMNS).map warnMissing) := by
  have h := foldl_addMissing REQUIRED_COLUMNS (df.cols.map normalizeName) df.rows []
  simpa [normalize_schema] using h

lemma mem_of_mem_missingOf :
    ∀ (req cols : List String) (c : String), c ∈ missingOf cols req → c ∈ req := by
  intro req
  induction req with
  | nil => intro cols c h; simp [missingOf] at h
  | cons d rest ih =>
    intro cols c h
    rw [missingOf] at h
    by_cases hd : d ∈ cols
    · rw [if_pos hd] at h
      exact List.mem_cons_of_mem _ (ih cols c h)
    · rw [if_neg hd] at h
      rcases List.mem_cons.mp h with h1 | h1
      · exact h1 ▸ List.mem_cons_self _ _
      · exact List.mem_cons_of_mem _ (ih (cols ++ [d]) c h1)

lemma not_mem_of_mem_missingOf :
    ∀ (req cols : List String) (c : String), c ∈ missingOf cols req → c ∉ cols := by
  intro req
  induction req with
  | nil => intro cols c h; simp [missingOf] at h
  | cons d rest ih =>
    intro cols c h
    rw [missingOf] at h
    by_cases hd : d ∈ cols
    · rw [if_pos hd] at h
      exact ih cols c h
    · rw [if_neg hd] at h
      rcases List.mem_cons.mp h with h1 | h1
      · exact h1 ▸ hd
      · intro hc
        exact ih (cols ++ [d]) c h1 (List.mem_append_left _ hc)

lemma mem_append_missingOf :
    ∀ (req cols : List String) (c : String), c ∈ req → c ∈ cols ++ missingOf cols req := by
  intro req
  induction req with
  | nil => intro cols c h; simp at h
  | cons d rest ih =>
    intro cols c h
    rw [missingOf]
    by_cases hd : d ∈ cols
    · rw [if_pos hd]
      rcases List.mem_cons.mp h with h1 | h1
      · exact List.mem_append_left _ (h1 ▸ hd)
      · exact ih cols c h1
    · rw [if_neg hd]
      rcases List.mem_cons.mp h with h1 | h1
      · subst h1
        exact List.mem_append_right _ (List.mem_cons_self _ _)
      · have h2 := ih (cols ++ [d]) c h1
        rcases List.mem_append.mp h2 with h3 | h3
        · rcases List.mem_append.mp h3 with h4 | h4
          · exact List.mem_append_left _ h4
          · refine List.mem_append_right _ ?_
            simp at h4
            simp [h4]
        · exact List.mem_append_right _ (List.mem_cons_of_mem _ h3)

lemma missingOf_of_forall_mem :
    ∀ (req cols : List String), (∀ c ∈ req, c ∈ cols) → missingOf cols req = [] := by
  intro req
  induction req with
  | nil => intro cols _; rfl
  | cons d rest ih =>
    intro cols h
    rw [missingOf, if_pos (h d (List.mem_cons_self _ _))]
    exact ih cols (fun c hc => h c (List.mem_cons_of_mem _ hc))

lemma missingOf_congr :
    ∀ (req cols1 cols2 : List String), (∀ x, x ∈ cols1 ↔ x ∈ cols2) →
      missingOf cols1 req = missingOf cols2 req := by
  intro req
  induction req with
  | nil => intro _ _ _; rfl
  | cons d rest ih =>
    intro cols1 cols2 h
    rw [missingOf, missingOf]
    by_cases hd : d ∈ cols1
    · rw [if_pos hd, if_pos ((h d).mp hd)]
      exact ih cols1 cols2 h
    · rw [if_neg hd, if_neg (fun hc => hd ((h d).mpr hc))]
      refine congrArg (List.cons d) (ih (cols1 ++ [d]) (cols2 ++ [d]) ?_)
      intro x
      simp [List.mem_append, h x]

lemma missingOf_append_single :
    ∀ (req cols : List String) (c : String), c ∉ req →
      missingOf (cols ++ [c]) req = missingOf cols req := by
  intro req
  induction req with
  | nil => intro _ _ _; rfl
  | cons d rest ih =>
    intro cols c hc
    have hdc : d ≠ c := fun h => hc (h ▸ List.mem_cons_self _ _)
    have hcrest : c ∉ rest := fun h => hc (List.mem_cons_of_mem _ h)
    rw [missingOf, missingOf]
    by_cases hd : d ∈ cols
    · rw [if_pos (List.mem_append_left _ hd), if_pos hd]
      exact ih cols c hcrest
    · have hd2 : d ∉ cols ++ [c] := by
        intro h
        rcases List.mem_append.mp h with h1 | h1
        · exact hd h1
        · simp at h1; exact hdc h1
      rw [if_neg hd2, if_neg hd]
      refine congrArg (List.cons d) ?_
      have hswap : missingOf (cols ++ [c] ++ [d]) rest
          = missingOf (cols ++ [d] ++ [c]) rest := by
        refine missingOf_congr rest _ _ ?_
        intro x
        simp [List.mem_append]
        tauto
      rw [hswap]
      exact ih (cols ++ [d]) c hcrest

lemma missingOf_eq_filter :
    ∀ (req cols : List String), req.Nodup →
      missingOf cols req = req.filter (fun c => decide (c ∉ cols)) := by
  intro req
  induction req with
  | nil => intro _ _; rfl
  | cons d rest ih =>
    intro cols hnd
    have hd1 : d ∉ rest := (List.nodup_cons.mp hnd).1
    have hd2 : rest.Nodup := (List.nodup_cons.mp hnd).2
    rw [missingOf, List.filter_cons]
    by_cases hd : d ∈ cols
    · rw [if_pos hd]
      have : (decide (d ∉ cols)) = false := by simp [hd]
      rw [this]
      simp only [Bool.false_eq_true, if_false]
      exact ih cols hd2
    · rw [if_neg hd]
      have : (decide (d ∉ cols)) = true := by simp [hd]
      rw [this]
      simp only [if_true]
      rw [missingOf_append_single rest cols d hd1]
      exact congrArg (List.cons d) (ih cols hd2)

/-!
Character-level lemmas: ASCII lowering is idempotent and preserves the
whitespace test, hence the column-name rewrite is idempotent.
-/

lemma toNat_ofNat_of_lt {n : Nat} (h : n < 55296) : (Char.ofNat n).toNat = n := by
  have hv : n.isValidChar := Or.inl h
  unfold Char.ofNat
  rw [dif_pos hv]
  rfl

lemma toLower_toNat_of_upper {c : Char} (h : 65 ≤ c.toNat ∧ c.toNat ≤ 90) :
    (Char.toLower c).toNat = c.toNat + 32 := by
  unfold Char.toLower
  rw [if_pos ⟨h.1, h.2⟩]
  exact toNat_ofNat_of_lt (by omega)

lemma toLower_eq_self_of_not_upper {c : Char} (h : ¬(65 ≤ c.toNat ∧ c.toNat ≤ 90)) :
    Char.toLower c = c := by
  unfold Char.toLower
  rw [if_neg (fun hc => h ⟨hc.1, hc.2⟩)]

lemma toLower_idem (c : Char) : Char.toLower (Char.toLower c) = Char.toLower c := by
  by_cases h : 65 ≤ c.toNat ∧ c.toNat ≤ 90
  · have h1 : (Char.toLower c).toNat = c.toNat + 32 := toLower_toNat_of_upper h
    refine toLower_eq_self_of_not_upper ?_
    rw [h1]
    omega
  · rw [toLower_eq_self_of_not_upper h, toLower_eq_self_of_not_upper h]

lemma isWhitespace_toNat {c : Char} (h : c.isWhitespace = true) :
    c.toNat = 32 ∨ c.toNat = 9 ∨ c.toNat = 13 ∨ c.toNat = 10 := by
  unfold Char.isWhitespace at h
  simp only [Bool.or_eq_true, decide_eq_true_eq] at h
  rcases h with ((h | h) | h) | h <;> subst h <;> decide

lemma not_isWhitespace_of_toNat {c : Char} (h1 : 65 ≤ c.toNat) (h2 : c.toNat ≤ 122) :
    c.isWhitespace = false := by
  cases hw : c.isWhitespace
  · rfl
  · exfalso
    have := isWhitespace_toNat hw
    omega

lemma isWhitespace_toLower (c : Char) :
    (Char.toLower c).isWhitespace = c.isWhitespace := by
  by_cases h : 65 ≤ c.toNat ∧ c.toNat ≤ 90
  · have h1 := toLower_toNat_of_upper h
    have ha : (65 : Nat) ≤ (Char.toLower c).toNat := by omega
    have hb : (Char.toLower c).toNat ≤ 122 := by omega
    rw [not_isWhitespace_of_toNat ha hb, not_isWhitespace_of_toNat h.1 (by omega)]
  · rw [toLower_eq_self_of_not_upper h]

lemma dropWhile_map_toLower (l : List Char) :
    (l.map Char.toLower).dropWhile Char.isWhitespace
      = (l.dropWhile Char.isWhitespace).map Char.toLower := by
  induction l with
  | nil => rfl
  | cons c t ih =>
    rw [List.map_cons, List.dropWhile_cons, List.dropWhile_cons, isWhitespace_toLower]
    by_cases h : c.isWhitespace = true
    · rw [if_pos h, if_pos h]
      exact ih
    · rw [if_neg h, if_neg h, List.map_cons]

lemma stripChars_map_toLower (l : List Char) :
    stripChars (l.map Char.toLower) = (stripChars l).map Char.toLower := by
  unfold stripChars dropTrailingWs
  rw [dropWhile_map_toLower]
  rw [← List.map_reverse]
  rw [dropWhile_map_toLower]
  rw [← List.map_reverse]

lemma dropWhile_idem (p : Char → Bool) (l : List Char) :
    (l.dropWhile p).dropWhile p = l.dropWhile p := by
  induction l with
  | nil => rfl
  | cons c t ih =>
    rw [List.dropWhile_cons]
    by_cases h : p c = true
    · rw [if_pos h]
      exact ih
    · rw [if_neg h, List.dropWhile_cons, if_neg h]

lemma length_dropWhile_le (p : Char → Bool) (l : List Char) :
    (l.dropWhile p).length ≤ l.length := by
  induction l with
  | nil => exact Nat.le_refl _
  | cons c t ih =>
    rw [List.dropWhile_cons]
    by_cases h : p c = true
    · rw [if_pos h]
      exact Nat.le_trans ih (Nat.le_succ _)
    · rw [if_neg h]

lemma dropWhile_dropTrailingWs (l : List Char)
    (h : l.dropWhile Char.isWhitespace = l) :
    (dropTrailingWs l).dropWhile Char.isWhitespace = dropTrailingWs l := by
  cases l with
  | nil => rfl
  | cons c t =>
    have hc : Char.isWhitespace c = false := by
      cases hw : Char.isWhitespace c
      · rfl
      · exfalso
        rw [List.dropWhile_cons, if_pos hw] at h
        have hlen := congrArg List.length h
        have hle := length_dropWhile_le Char.isWhitespace t
        simp only [List.length_cons] at hlen
        omega
    unfold dropTrailingWs
    rw [List.reverse_cons, List.dropWhile_append]
    by_cases he : (t.reverse.dropWhile Char.isWhitespace).isEmpty = true
    · rw [if_pos he]
      have h1 : List.dropWhile Char.isWhitespace [c] = [c] := by
        rw [show [c] = c :: ([] : List Char) from rfl, List.dropWhile_cons]
        simp [hc]
      rw [h1]
      simp [List.dropWhile_cons, hc]
    · rw [if_neg he, List.reverse_append]
      simp only [List.reverse_cons, List.reverse_nil, List.nil_append,
        List.singleton_append]
      rw [List.dropWhile_cons]
      simp [hc]

lemma stripChars_idem (l : List Char) : stripChars (stripChars l) = stripChars l := by
  have hA : (l.dropWhile Char.isWhitespace).dropWhile Char.isWhitespace
      = l.dropWhile Char.isWhitespace := dropWhile_idem _ _
  show stripChars (dropTrailingWs (l.dropWhile Char.isWhitespace))
      = dropTrailingWs (l.dropWhile Char.isWhitespace)
  unfold stripChars
  rw [dropWhile_dropTrailingWs _ hA]
  unfold dropTrailingWs
  rw [List.reverse_reverse, dropWhile_idem]

lemma map_toLower_idem (l : List Char) :
    (l.map Char.toLower).map Char.toLower = l.map Char.toLower := by
  rw [List.map_map]
  exact List.map_congr_left (fun a _ => toLower_idem a)

lemma normalizeName_idem (s : String) :
    normalizeName (normalizeName s) = normalizeName s := by
  unfold normalizeName
  refine congrArg String.mk ?_
  calc stripChars ((String.mk (stripChars (s.data.map Char.toLower))).data.map Char.toLower)
      = stripChars ((stripChars (s.data.map Char.toLower)).map Char.toLower) := rfl
    _ = stripChars (stripChars ((s.data.map Char.toLower).map Char.toLower)) :=
        (congrArg stripChars (stripChars_map_toLower (s.data.map Char.toLower))).symm
    _ = stripChars (stripChars (s.data.map Char.toLower)) := by rw [map_toLower_idem]
    _ = stripChars (s.data.map Char.toLower) := stripChars_idem _

lemma normalizeName_fixed_required :
    ∀ c ∈ REQUIRED_COLUMNS, normalizeName c = c := by decide

/-!
Lemmas about the encoding loop of read_csv_file.
-/

lemma tryEncodings_eq (f : RawFile) :
    ∀ l : List Encoding,
      tryEncodings f l =
        match firstParseAux f l with
        | some (e, df) => decodeSuccess f df e
        | none => (⟨[], []⟩, [decodeFailureLog f]) := by
  intro l
  induction l with
  | nil => rfl
  | cons e rest ih =>
    rw [tryEncodings, firstParseAux]
    cases hp : f.parse e with
    | some df => rfl
    | none => simpa using ih

lemma firstParseAux_eq_none (f : RawFile) :
    ∀ l : List Encoding, (∀ e ∈ l, f.parse e = none) → firstParseAux f l = none := by
  intro l
  induction l with
  | nil => intro _; rfl
  | cons e rest ih =>
    intro h
    rw [firstParseAux, h e (List.mem_cons_self _ _)]
    exact ih (fun x hx => h x (List.mem_cons_of_mem _ hx))

lemma firstParseAux_mem (f : RawFile) :
    ∀ (l : List Encoding) (e : Encoding) (df : Table),
      firstParseAux f l = some (e, df) → e ∈ l ∧ f.parse e = some df := by
  intro l
  induction l with
  | nil => intro e df h; simp [firstParseAux] at h
  | cons e0 rest ih =>
    intro e df h
    rw [firstParseAux] at h
    cases hp : f.parse e0 with
    | some df0 =>
      rw [hp] at h
      simp only [Option.some.injEq, Prod.mk.injEq] at h
      refine ⟨h.1 ▸ List.mem_cons_self _ _, ?_⟩
      rw [← h.1, hp, h.2]
    | none =>
      rw [hp] at h
      have := ih e df h
      exact ⟨List.mem_cons_of_mem _ this.1, this.2⟩

lemma extract_logs_warning (f : RawFile) :
    ∀ l ∈ (extract_month_from_filename f).2, l.level = LogLevel.warning := by
  unfold extract_month_from_filename
  cases (splitOnChar '_' f.stem.data).find? isMonthToken with
  | some p => intro l hl; simp at hl
  | none =>
    intro l hl
    simp at hl
    rw [hl]

lemma setColumn_rows_nil {t : Table} {c : String} {v : Cell} (h : t.rows = []) :
    (setColumn t c v).rows = [] := by
  unfold setColumn
  split <;> simp [h]

/-- Claim C1: read_csv_file is a total function (no error reaches the
caller); when some candidate encoding parses the file it returns the table
built from the first such parse, and when every candidate fails it logs one
error-severity diagnostic naming the file and returns the empty table with
zero rows (and zero columns). -/
theorem c1_decode_never_fails (f : RawFile) :
    ((∀ e ∈ encodingList, f.parse e = none) →
        read_csv_file f = (⟨[], []⟩, [decodeFailureLog f])
        ∧ ((read_csv_file f).1).rows.length = 0)
    ∧ (∀ (e : Encoding) (df : Table), firstParse f = some (e, df) →
        read_csv_file f = decodeSuccess f df e) := by
  constructor
  · intro h
    have hn := firstParseAux_eq_none f encodingList h
    have ht := tryEncodings_eq f encodingList
    rw [hn] at ht
    have ht2 : read_csv_file f = (⟨[], []⟩, [decodeFailureLog f]) := by
      rw [read_csv_file, ht]
    exact ⟨ht2, by rw [ht2]; rfl⟩
  · intro e df h
    have ht := tryEncodings_eq f encodingList
    rw [show firstParseAux f encodingList = firstParse f from rfl, h] at ht
    exact ht

/-- Claim C4: the candidate encodings are tried in the fixed source order
utf-8, utf-16, cp1252 (Windows-1252), latin1 (Latin-1), stopping at the
first successful parse; on success the result is the parsed table passed
through normalize_schema with the source_file column set to the file name
and the source_month column set to the extractor applied to the stem, and
the log opens with an info message naming the encoding that worked. -/
theorem c4_encoding_order (f : RawFile) :
    (∀ df : Table, f.parse Encoding.utf8 = some df →
        read_csv_file f = decodeSuccess f df Encoding.utf8)
    ∧ (∀ df : Table, f.parse Encoding.utf8 = none →
        f.parse Encoding.utf16 = some df →
        read_csv_file f = decodeSuccess f df Encoding.utf16)
    ∧ (∀ df : Table, f.parse Encoding.utf8 = none →
        f.parse Encoding.utf16 = none → f.parse Encoding.cp1252 = some df →
        read_csv_file f = decodeSuccess f df Encoding.cp1252)
    ∧ (∀ df : Table, f.parse Encoding.utf8 = none →
        f.parse Encoding.utf16 = none → f.parse Encoding.cp1252 = none →
        f.parse Encoding.latin1 = some df →
        read_csv_file f = decodeSuccess f df Encoding.latin1)
    ∧ (∀ (df : Table) (e : Encoding),
        decodeSuccess f df e
          = (setColumn
               (setColumn (normalize_schema df).1 "source_file" (Cell.val f.name))
               "source_month" (Cell.val (extract_month_from_filename f).1),
             ⟨LogLevel.info, "Loaded " ++ f.name ++ " using " ++ encodingName e⟩
               :: ((normalize_schema df).2 ++ (extract_month_from_filename f).2))) := by
  refine ⟨?_, ?_, ?_, ?_, ?_⟩
  · intro df h1
    simp [read_csv_file, encodingList, tryEncodings, h1]
  · intro df h1 h2
    simp [read_csv_file, encodingList, tryEncodings, h1, h2]
  · intro df h1 h2 h3
    simp [read_csv_file, encodingList, tryEncodings, h1, h2, h3]
  · intro df h1 h2 h3 h4
    simp [read_csv_file, encodingList, tryEncodings, h1, h2, h3, h4]
  · intro df e
    rfl

/-!
Lemmas and claims about extract_month_from_filename.
-/

lemma find?_append_of_none {α : Type} (p : α → Bool) :
    ∀ (l1 l2 : List α), (∀ x ∈ l1, p x = false) →
      List.find? p (l1 ++ l2) = List.find? p l2 := by
  intro l1
  induction l1 with
  | nil => intro l2 _; rfl
  | cons a t ih =>
    intro l2 h
    rw [List.cons_append, List.find?_cons_of_neg]
    · exact ih l2 (fun x hx => h x (List.mem_cons_of_mem _ hx))
    · simp [h a (List.mem_cons_self _ _)]

/-- Claim C6: extract_month_from_filename splits the stem on underscores and
returns the first (leftmost) token that contains a hyphen and has exactly 7
characters; the test is purely structural (no calendar validation, so
tokens such as 9999-99 or ab-cdef qualify); when no token qualifies it logs
a warning and returns the sentinel "unknown". -/
theorem c6_extract_first_token (f : RawFile) :
    (∀ (pre : List (List Char)) (tok : List Char) (post : List (List Char)),
        splitOnChar '_' f.stem.data = pre ++ tok :: post →
        (∀ x ∈ pre, isMonthToken x = false) →
        isMonthToken tok = true →
        extract_month_from_filename f = (String.mk tok, []))
    ∧ ((∀ x ∈ splitOnChar '_' f.stem.data, isMonthToken x = false) →
        extract_month_from_filename f
          = ("unknown",
             [⟨LogLevel.warning, "Could not extract month from " ++ f.name⟩]))
    ∧ isMonthToken "9999-99".data = true
    ∧ isMonthToken "ab-cdef".data = true := by
  refine ⟨?_, ?_, by decide, by decide⟩
  · intro pre tok post hsplit hpre htok
    unfold extract_month_from_filename
    rw [hsplit, find?_append_of_none _ _ _ hpre, List.find?_cons_of_pos _ htok]
  · intro h
    unfold extract_month_from_filename
    rw [List.find?_eq_none.mpr (fun x hx => by simp [h x hx])]

/-!
Claims about normalize_schema.
-/

/-- Claim C5 (amended): after normalize_schema the column-name list is the
rewritten original list followed by exactly the required columns that were
absent after the rewrite, so the column set is a superset of the required
set and no column is removed; every appended column is filled entirely with
the null marker; the original cells are untouched; and one warning-severity
diagnostic naming the missing column (but not the source file, which
normalize_schema does not receive) is emitted per appended column. -/
theorem c5_normalize_fills_required (df : Table) :
    (∀ c ∈ REQUIRED_COLUMNS, c ∈ ((normalize_schema df).1).cols)
    ∧ ((normalize_schema df).1).cols
        = df.cols.map normalizeName
          ++ missingOf (df.cols.map normalizeName) REQUIRED_COLUMNS
    ∧ ((normalize_schema df).1).rows
        = df.rows.map (fun r => r ++ List.replicate
            (missingOf (df.cols.map normalizeName) REQUIRED_COLUMNS).length Cell.na)
    ∧ (∀ c ∈ missingOf (df.cols.map normalizeName) REQUIRED_COLUMNS,
        c ∈ REQUIRED_COLUMNS ∧ c ∉ df.cols.map normalizeName)
    ∧ (∀ c ∈ REQUIRED_COLUMNS, c ∉ df.cols.map normalizeName →
        c ∈ missingOf (df.cols.map normalizeName) REQUIRED_COLUMNS)
    ∧ (normalize_schema df).2
        = (missingOf (df.cols.map normalizeName) REQUIRED_COLUMNS).map warnMissing := by
  have h1 := normalize_schema_eq df
  refine ⟨?_, by rw [h1], by rw [h1], ?_, ?_, by rw [h1]⟩
  · intro c hc
    rw [h1]
    exact mem_append_missingOf REQUIRED_COLUMNS (df.cols.map normalizeName) c hc
  · intro c hc
    exact ⟨mem_of_mem_missingOf _ _ _ hc, not_mem_of_mem_missingOf _ _ _ hc⟩
  · intro c hc hnotin
    have h2 := mem_append_missingOf REQUIRED_COLUMNS (df.cols.map normalizeName) c hc
    rcases List.mem_append.mp h2 with h3 | h3
    · exact absurd h3 hnotin
    · exact h3

/-- Claim C8: normalize_schema is idempotent on tables: applying it to its
own table output changes nothing. -/
theorem c8_normalize_idempotent (df : Table) :
    (normalize_schema ((normalize_schema df).1)).1 = (normalize_schema df).1 := by
  have h1 := normalize_schema_eq df
  have h2 := normalize_schema_eq ((normalize_schema df).1)
  have hcols : ((normalize_schema df).1).cols
      = df.cols.map normalizeName
        ++ missingOf (df.cols.map normalizeName) REQUIRED_COLUMNS := by rw [h1]
  have e1 : (df.cols.map normalizeName).map normalizeName
      = df.cols.map normalizeName := by
    rw [List.map_map]
    exact List.map_congr_left (fun a _ => normalizeName_idem a)
  have e2 : (missingOf (df.cols.map normalizeName) REQUIRED_COLUMNS).map normalizeName
      = missingOf (df.cols.map normalizeName) REQUIRED_COLUMNS :=
    calc (missingOf (df.cols.map normalizeName) REQUIRED_COLUMNS).map normalizeName
        = (missingOf (df.cols.map normalizeName) REQUIRED_COLUMNS).map id :=
          List.map_congr_left
            (fun a ha => normalizeName_fixed_required a (mem_of_mem_missingOf _ _ _ ha))
      _ = missingOf (df.cols.map normalizeName) REQUIRED_COLUMNS := List.map_id _
  have hmapfix : (((normalize_schema df).1).cols).map normalizeName
      = ((normalize_schema df).1).cols := by
    rw [hcols, List.map_append, e1, e2]
  have hmiss : missingOf ((((normalize_schema df).1).cols).map normalizeName)
      REQUIRED_COLUMNS = [] := by
    rw [hmapfix, hcols]
    exact missingOf_of_forall_mem _ _
      (fun c hc => mem_append_missingOf REQUIRED_COLUMNS (df.cols.map normalizeName) c hc)
  rw [h2, hmiss]
  simp [hmapfix]

/-- Claim C10: normalize_schema keeps duplicate column names produced by the
rewrite (it only ever appends), so the resulting column count is the
original column count plus the number of required columns absent after the
rewrite, and the multiplicity of every name is the multiplicity among the
rewritten originals plus its multiplicity among the appended required
columns. -/
theorem c10_duplicates_kept (df : Table) :
    ((normalize_schema df).1).cols.length
        = df.cols.length
          + (REQUIRED_COLUMNS.filter
              (fun c => decide (c ∉ df.cols.map normalizeName))).length
    ∧ ∀ n : String, ((normalize_schema df).1).cols.count n
        = (df.cols.map normalizeName).count n
          + (missingOf (df.cols.map normalizeName) REQUIRED_COLUMNS).count n := by
  have h1 := normalize_schema_eq df
  constructor
  · rw [h1]
    simp only [List.length_append, List.length_map]
    rw [missingOf_eq_filter REQUIRED_COLUMNS (df.cols.map normalizeName) (by decide)]
  · intro n
    rw [h1]
    simp only [List.count_append]

/-!
Claims about the assembler ingest_all_files.
-/

lemma normalize_rows_nil {df : Table} (h : df.rows = []) :
    ((normalize_schema df).1).rows = [] := by
  rw [normalize_schema_eq df]
  simp [h]

lemma decodeSuccess_eq (f : RawFile) (df : Table) (e : Encoding) :
    decodeSuccess f df e
      = (setColumn (setColumn (normalize_schema df).1 "source_file" (Cell.val f.name))
           "source_month" (Cell.val (extract_month_from_filename f).1),
         ⟨LogLevel.info, "Loaded " ++ f.name ++ " using " ++ encodingName e⟩
           :: ((normalize_schema df).2 ++ (extract_month_from_filename f).2)) := rfl

lemma decodeSuccess_fst (f : RawFile) (df : Table) (e : Encoding) :
    (decodeSuccess f df e).1
      = setColumn (setColumn (normalize_schema df).1 "source_file" (Cell.val f.name))
          "source_month" (Cell.val (extract_month_from_filename f).1) := by
  rw [decodeSuccess_eq]

lemma decodeSuccess_snd (f : RawFile) (df : Table) (e : Encoding) :
    (decodeSuccess f df e).2
      = ⟨LogLevel.info, "Loaded " ++ f.name ++ " using " ++ encodingName e⟩
          :: ((normalize_schema df).2 ++ (extract_month_from_filename f).2) := by
  rw [decodeSuccess_eq]

lemma decodeSuccess_rows_nil {f : RawFile} {df : Table} {e : Encoding}
    (h : df.rows = []) : ((decodeSuccess f df e).1).rows = [] := by
  rw [decodeSuccess_fst]
  exact setColumn_rows_nil (setColumn_rows_nil (normalize_rows_nil h))

lemma warnMissing_level (c : String) : (warnMissing c).level = LogLevel.warning := rfl

lemma decodeSuccess_no_error_log (f : RawFile) (df : Table) (e : Encoding) :
    ∀ l ∈ (decodeSuccess f df e).2, l.level ≠ LogLevel.error := by
  intro l hl
  rw [decodeSuccess_snd] at hl
  simp only [List.mem_cons, List.mem_append] at hl
  rcases hl with hl | hl | hl
  · rw [hl]
    simp
  · rw [normalize_schema_eq df] at hl
    simp only [List.mem_map] at hl
    obtain ⟨c, _, hc⟩ := hl
    rw [← hc]
    simp [warnMissing]
  · rw [extract_logs_warning f l hl]
    simp

/-- Claim C9: a file whose first successful parse yields a table with zero
data rows is excluded from the run exactly like an undecodable file - its
decoded table is empty in the pandas sense and its log stream carries no
error-severity message - and when every discovered file decodes to a
zero-row table, ingest_all_files fails with noValidDataError even though no
decoding failure occurred. -/
theorem c9_empty_decode_excluded :
    (∀ (f : RawFile) (e : Encoding) (df : Table),
        firstParse f = some (e, df) → df.rows = [] →
        ((read_csv_file f).1).isEmpty = true
        ∧ ∀ l ∈ (read_csv_file f).2, l.level ≠ LogLevel.error)
    ∧ (∀ d : RawDir, d.dirExists = true → csvFiles d ≠ [] →
        (∀ f ∈ csvFiles d, ((read_csv_file f).1).rows = []) →
        ingest_all_files d
          = Except.error (IngestError.noValidDataError
              "No datasets were loaded. Check file encodings or file integrity.")) := by
  constructor
  · intro f e df hfp hrows
    have ht := tryEncodings_eq f encodingList
    rw [show firstParseAux f encodingList = firstParse f from rfl, hfp] at ht
    have hread : read_csv_file f = decodeSuccess f df e := ht
    constructor
    · rw [hread]
      unfold Table.isEmpty
      rw [decodeSuccess_rows_nil hrows]
      simp
    · intro l hl
      rw [hread] at hl
      exact decodeSuccess_no_error_log f df e l hl
  · intro d hex hfiles hrows
    have hkept : keptTables d = [] := by
      unfold keptTables
      rw [List.filter_eq_nil_iff]
      intro t ht
      simp only [List.mem_map] at ht
      obtain ⟨f, hf, hft⟩ := ht
      have h1 : t.rows = [] := by rw [← hft]; exact hrows f hf
      have h2 : t.isEmpty = true := by
        unfold Table.isEmpty
        rw [h1]
        simp
      simp [h2]
    unfold ingest_all_files
    rw [if_neg (by simp [hex])]
    rw [if_neg (by simp [List.isEmpty_iff, hfiles])]
    rw [if_pos (by simp [List.isEmpty_iff, hkept])]

/-- Claim C2: ingest_all_files fails with the discovery error kind when the
input directory does not exist and when it exists but the case-sensitive
recursive *.csv glob finds no file; when files are found but every decoded
table is empty it fails with the distinct noValidDataError kind; otherwise
it returns the concatenated dataset normally. -/
theorem c2_error_kinds (d : RawDir) :
    (d.dirExists = false →
        ingest_all_files d
          = Except.error
              (IngestError.discoveryError "data/raw directory does not exist."))
    ∧ (d.dirExists = true → csvFiles d = [] →
        ingest_all_files d
          = Except.error
              (IngestError.discoveryError "No CSV files found in data/raw."))
    ∧ (d.dirExists = true → csvFiles d ≠ [] → keptTables d = [] →
        ingest_all_files d
          = Except.error (IngestError.noValidDataError
              "No datasets were loaded. Check file encodings or file integrity."))
    ∧ (d.dirExists = true → keptTables d ≠ [] →
        ingest_all_files d = Except.ok (concatTables (keptTables d)))
    ∧ (∀ m1 m2 : String,
        IngestError.discoveryError m1 ≠ IngestError.noValidDataError m2) := by
  refine ⟨?_, ?_, ?_, ?_, ?_⟩
  · intro h
    unfold ingest_all_files
    rw [if_pos h]
  · intro hex hfiles
    unfold ingest_all_files
    rw [if_neg (by simp [hex])]
    rw [if_pos (by simp [List.isEmpty_iff, hfiles])]
  · intro hex hfiles hkept
    unfold ingest_all_files
    rw [if_neg (by simp [hex])]
    rw [if_neg (by simp [List.isEmpty_iff, hfiles])]
    rw [if_pos (by simp [List.isEmpty_iff, hkept])]
  · intro hex hkept
    have hfiles : csvFiles d ≠ [] := by
      intro hf
      refine hkept ?_
      unfold keptTables
      rw [hf]
      rfl
    unfold ingest_all_files
    rw [if_neg (by simp [hex])]
    rw [if_neg (by simp [List.isEmpty_iff, hfiles])]
    rw [if_neg (by simp [List.isEmpty_iff, hkept])]
  · intro m1 m2
    simp

/-!
Lemmas about column union, row alignment and concatenation.
-/

lemma mem_insertCol (acc : List String) (c x : String) :
    x ∈ insertCol acc c ↔ x ∈ acc ∨ x = c := by
  unfold insertCol
  by_cases h : c ∈ acc
  · rw [if_pos h]
    constructor
    · exact Or.inl
    · rintro (h1 | h1)
      · exact h1
      · exact h1 ▸ h
  · rw [if_neg h]
    simp [List.mem_append]

lemma mem_foldl_insertCol (cols : List String) :
    ∀ (acc : List String) (x : String),
      x ∈ cols.foldl insertCol acc ↔ x ∈ acc ∨ x ∈ cols := by
  induction cols with
  | nil => intro acc x; simp
  | cons c t ih =>
    intro acc x
    rw [List.foldl_cons, ih, mem_insertCol, List.mem_cons]
    tauto

lemma mem_unionCols (dfs : List Table) (x : String) :
    x ∈ unionCols dfs ↔ ∃ t ∈ dfs, x ∈ t.cols := by
  have aux : ∀ (ds : List Table) (acc : List String),
      x ∈ ds.foldl (fun acc df => df.cols.foldl insertCol acc) acc
        ↔ x ∈ acc ∨ ∃ t ∈ ds, x ∈ t.cols := by
    intro ds
    induction ds with
    | nil => intro acc; simp
    | cons d t ih =>
      intro acc
      rw [List.foldl_cons, ih, mem_foldl_insertCol]
      simp only [List.mem_cons]
      constructor
      · rintro ((h | h) | ⟨u, hu, hx⟩)
        · exact Or.inl h
        · exact Or.inr ⟨d, Or.inl rfl, h⟩
        · exact Or.inr ⟨u, Or.inr hu, hx⟩
      · rintro (h | ⟨u, hu | hu, hx⟩)
        · exact Or.inl (Or.inl h)
        · exact Or.inl (Or.inr (hu ▸ hx))
        · exact Or.inr ⟨u, hu, hx⟩
  have h := aux dfs []
  simpa [unionCols] using h

lemma zip_map_self {α β : Type} (g : α → β) :
    ∀ (l : List α) (q : α × β), q ∈ l.zip (l.map g) → q.2 = g q.1 := by
  intro l
  induction l with
  | nil => intro q hq; simp at hq
  | cons a t ih =>
    intro q hq
    rw [List.map_cons, List.zip_cons_cons, List.mem_cons] at hq
    rcases hq with hq | hq
    · rw [hq]
    · exact ih q hq

lemma zip_zip_map {β : Type} (f : String × Cell → β) :
    ∀ (cols : List String) (r : List Cell) (q : String × β),
      q ∈ cols.zip ((cols.zip r).map f) → ∃ p ∈ cols.zip r, q = (p.1, f p) := by
  intro cols
  induction cols with
  | nil => intro r q hq; simp at hq
  | cons d t ih =>
    intro r q hq
    cases r with
    | nil => simp at hq
    | cons x r2 =>
      rw [List.zip_cons_cons, List.map_cons, List.zip_cons_cons, List.mem_cons] at hq
      rcases hq with hq | hq
      · exact ⟨(d, x), List.mem_cons_self _ _, hq⟩
      · obtain ⟨p, hp, hq2⟩ := ih r2 q hq
        exact ⟨p, List.mem_cons_of_mem _ hp, hq2⟩

lemma exists_zip_pair (cols : List String) :
    ∀ (r : List Cell) (c : String),
      r.length = cols.length → c ∈ cols → ∃ q ∈ cols.zip r, q.1 = c := by
  induction cols with
  | nil => intro r c _ hc; simp at hc
  | cons d t ih =>
    intro r c hlen hc
    cases r with
    | nil => simp at hlen
    | cons x r2 =>
      rw [List.zip_cons_cons]
      rcases List.mem_cons.mp hc with hc | hc
      · exact ⟨(d, x), List.mem_cons_self _ _, hc.symm⟩
      · simp only [List.length_cons] at hlen
        obtain ⟨q, hq, hq1⟩ := ih r2 c (by omega) hc
        exact ⟨q, List.mem_cons_of_mem _ hq, hq1⟩

/-!
Lemmas about setColumn.
-/

lemma WF_setColumn {t : Table} {c : String} {v : Cell} (h : WF t) :
    WF (setColumn t c v) := by
  unfold setColumn
  by_cases hc : c ∈ t.cols
  · rw [if_pos hc]
    intro r hr
    simp only [List.mem_map] at hr
    obtain ⟨r0, hr0, rfl⟩ := hr
    simp [List.length_zip, h r0 hr0]
  · rw [if_neg hc]
    intro r hr
    simp only [List.mem_map] at hr
    obtain ⟨r0, hr0, rfl⟩ := hr
    simp [h r0 hr0]

lemma mem_setColumn_self (t : Table) (c : String) (v : Cell) :
    c ∈ (setColumn t c v).cols := by
  unfold setColumn
  by_cases hc : c ∈ t.cols
  · rw [if_pos hc]
    exact hc
  · rw [if_neg hc]
    simp

lemma mem_setColumn_of_mem {t : Table} {x : String} (c : String) (v : Cell)
    (h : x ∈ t.cols) : x ∈ (setColumn t c v).cols := by
  unfold setColumn
  by_cases hc : c ∈ t.cols
  · rw [if_pos hc]
    exact h
  · rw [if_neg hc]
    exact List.mem_append_left _ h

lemma colAll_setColumn {t : Table} {c : String} {v : Cell} (h : WF t) :
    colAll (setColumn t c v) c v := by
  unfold setColumn
  by_cases hc : c ∈ t.cols
  · rw [if_pos hc]
    intro r hr q hq hq1
    simp only [List.mem_map] at hr
    obtain ⟨r0, hr0, rfl⟩ := hr
    obtain ⟨p, _, hqp⟩ := zip_zip_map _ t.cols r0 q hq
    rw [hqp]
    rw [hqp] at hq1
    simp only at hq1
    simp [hq1]
  · rw [if_neg hc]
    intro r hr q hq hq1
    simp only [List.mem_map] at hr
    obtain ⟨r0, hr0, rfl⟩ := hr
    rw [List.zip_append (by rw [h r0 hr0])] at hq
    rcases List.mem_append.mp hq with hq2 | hq2
    · exfalso
      have := (List.of_mem_zip (by exact Prod.mk.eta ▸ hq2 : (q.1, q.2) ∈ t.cols.zip r0)).1
      exact hc (hq1 ▸ this)
    · have hq3 : q = (c, v) := by simpa using hq2
      rw [hq3]

lemma colAll_setColumn_ne {t : Table} {c c2 : String} {v v2 : Cell}
    (hne : c ≠ c2) (h : WF t) (hall : colAll t c v) :
    colAll (setColumn t c2 v2) c v := by
  unfold setColumn
  by_cases hc2 : c2 ∈ t.cols
  · rw [if_pos hc2]
    intro r hr q hq hq1
    simp only [List.mem_map] at hr
    obtain ⟨r0, hr0, rfl⟩ := hr
    obtain ⟨p, hp, hqp⟩ := zip_zip_map _ t.cols r0 q hq
    rw [hqp]
    rw [hqp] at hq1
    simp only at hq1
    have hpne : ¬ p.1 = c2 := by rw [hq1]; exact hne
    simp only [if_neg hpne]
    exact hall r0 hr0 p hp hq1
  · rw [if_neg hc2]
    intro r hr q hq hq1
    simp only [List.mem_map] at hr
    obtain ⟨r0, hr0, rfl⟩ := hr
    rw [List.zip_append (by rw [h r0 hr0])] at hq
    rcases List.mem_append.mp hq with hq2 | hq2
    · exact hall r0 hr0 q hq2 hq1
    · exfalso
      have hq3 : q = (c2, v2) := by simpa using hq2
      apply hne
      rw [← hq1, hq3]

lemma colNonNull_of_colAll {t : Table} {c : String} {s : String}
    (h : colAll t c (Cell.val s)) : colNonNull t c := by
  intro r hr q hq hq1
  rw [h r hr q hq hq1]
  simp

lemma WF_normalize {df : Table} (h : WF df) : WF (normalize_schema df).1 := by
  rw [normalize_schema_eq]
  intro r hr
  simp only [List.mem_map] at hr
  obtain ⟨r0, hr0, rfl⟩ := hr
  simp [h r0 hr0]

lemma decode_table_props (f : RawFile) (df : Table) (e : Encoding) (hwf : WF df) :
    WF (decodeSuccess f df e).1
    ∧ "source_file" ∈ ((decodeSuccess f df e).1).cols
    ∧ "source_month" ∈ ((decodeSuccess f df e).1).cols
    ∧ colAll (decodeSuccess f df e).1 "source_file" (Cell.val f.name)
    ∧ colAll (decodeSuccess f df e).1 "source_month"
        (Cell.val (extract_month_from_filename f).1) := by
  rw [decodeSuccess_fst]
  have h1 : WF (normalize_schema df).1 := WF_normalize hwf
  have h2 : WF (setColumn (normalize_schema df).1 "source_file" (Cell.val f.name)) :=
    WF_setColumn h1
  refine ⟨WF_setColumn h2, ?_, mem_setColumn_self _ _ _, ?_, colAll_setColumn h2⟩
  · exact mem_setColumn_of_mem _ _ (mem_setColumn_self _ _ _)
  · exact colAll_setColumn_ne (by decide) h2 (colAll_setColumn h1)

/-!
Lemmas about the shape of concatTables and the ok-branch of the assembler.
-/

lemma concatTables_cols (dfs : List Table) : (concatTables dfs).cols = unionCols dfs := rfl

lemma concatTables_rows (dfs : List Table) :
    (concatTables dfs).rows
      = (dfs.map (fun df => df.rows.map
          (fun r => extendRow df.cols r (unionCols dfs)))).flatten := rfl

lemma concatTables_rows_length (dfs : List Table) :
    (concatTables dfs).rows.length = (dfs.map (fun t => t.rows.length)).sum := by
  rw [concatTables_rows, List.length_flatten, List.map_map]
  refine congrArg List.sum (List.map_congr_left ?_)
  intro t _
  simp [List.length_map]

lemma extendRow_eq_na {srcCols : List String} {row : List Cell}
    {allCols : List String} :
    ∀ q ∈ allCols.zip (extendRow srcCols row allCols),
      q.1 ∉ srcCols → q.2 = Cell.na := by
  intro q hq hnot
  have hq2 := zip_map_self _ allCols q hq
  rw [hq2]
  rw [List.find?_eq_none.mpr ?_]
  · intro x hx
    simp only [beq_iff_eq]
    intro hx1
    exact hnot (hx1 ▸ (List.of_mem_zip hx).1)

lemma ingest_ok_elim {d : RawDir} {out : Table}
    (hok : ingest_all_files d = Except.ok out) :
    out = concatTables (keptTables d) ∧ keptTables d ≠ [] := by
  unfold ingest_all_files at hok
  by_cases h1 : d.dirExists = false
  · rw [if_pos h1] at hok
    exact absurd hok (by simp)
  · rw [if_neg h1] at hok
    by_cases h2 : (csvFiles d).isEmpty = true
    · rw [if_pos h2] at hok
      exact absurd hok (by simp)
    · rw [if_neg h2] at hok
      by_cases h3 : (keptTables d).isEmpty = true
      · rw [if_pos h3] at hok
        exact absurd hok (by simp)
      · rw [if_neg h3] at hok
        refine ⟨(Except.ok.inj hok).symm, ?_⟩
        intro hk
        exact h3 (by simp [List.isEmpty_iff, hk])

lemma keptTables_mem {d : RawDir} {t : Table} (h : t ∈ keptTables d) :
    ∃ f ∈ csvFiles d, t = (read_csv_file f).1 ∧ t.isEmpty = false := by
  unfold keptTables at h
  rw [List.mem_filter] at h
  obtain ⟨h1, h2⟩ := h
  rw [List.mem_map] at h1
  obtain ⟨f, hf, hft⟩ := h1
  refine ⟨f, hf, hft.symm, ?_⟩
  simpa using h2

lemma read_csv_file_cases (f : RawFile) :
    read_csv_file f = (⟨[], []⟩, [decodeFailureLog f])
    ∨ ∃ (e : Encoding) (df : Table), e ∈ encodingList ∧ f.parse e = some df
        ∧ read_csv_file f = decodeSuccess f df e := by
  have ht := tryEncodings_eq f encodingList
  cases hfp : firstParseAux f encodingList with
  | none =>
    rw [hfp] at ht
    exact Or.inl ht
  | some pair =>
    obtain ⟨e, df⟩ := pair
    rw [hfp] at ht
    have hmem := firstParseAux_mem f encodingList e df hfp
    exact Or.inr ⟨e, df, hmem.1, hmem.2, ht⟩

lemma kept_table_props {d : RawDir}
    (hwf : ∀ f ∈ csvFiles d, ∀ (e : Encoding) (t : Table), f.parse e = some t → WF t) :
    ∀ t ∈ keptTables d,
      WF t ∧ "source_file" ∈ t.cols ∧ "source_month" ∈ t.cols
      ∧ colNonNull t "source_file" ∧ colNonNull t "source_month" := by
  intro t ht
  obtain ⟨f, hf, hteq, hne⟩ := keptTables_mem ht
  rcases read_csv_file_cases f with hcase | ⟨e, df, _, hparse, hcase⟩
  · exfalso
    rw [hcase] at hteq
    rw [hteq] at hne
    simp [Table.isEmpty] at hne
  · have hwft : WF df := hwf f hf e df hparse
    have hp := decode_table_props f df e hwft
    rw [hcase] at hteq
    rw [hteq]
    exact ⟨hp.1, hp.2.1, hp.2.2.1,
      colNonNull_of_colAll hp.2.2.2.1, colNonNull_of_colAll hp.2.2.2.2⟩

lemma colNonNull_concat {dfs : List Table} {c : String}
    (h : ∀ t ∈ dfs, WF t ∧ c ∈ t.cols ∧ colNonNull t c) :
    colNonNull (concatTables dfs) c := by
  intro r hr q hq hq1
  rw [concatTables_rows, List.mem_flatten] at hr
  obtain ⟨block, hb, hrb⟩ := hr
  rw [List.mem_map] at hb
  obtain ⟨t, ht, rfl⟩ := hb
  rw [List.mem_map] at hrb
  obtain ⟨r0, hr0, rfl⟩ := hrb
  rw [concatTables_cols] at hq
  have hq2 := zip_map_self _ (unionCols dfs) q hq
  obtain ⟨hwft, hmemt, hnnt⟩ := h t ht
  rcases hfind : (t.cols.zip r0).find? (fun x => x.1 == q.1) with _ | p2
  · exfalso
    obtain ⟨p, hp, hp1⟩ := exists_zip_pair t.cols r0 c (hwft r0 hr0) hmemt
    have hnone := List.find?_eq_none.mp hfind p hp
    rw [hq1] at hnone
    simp [hp1] at hnone
  · have hp2c : p2.1 = q.1 := by
      have := List.find?_some hfind
      simpa using this
    have hp2mem := List.mem_of_find?_eq_some hfind
    have : q.2 = p2.2 := by rw [hq2, hfind]
    rw [this]
    exact hnnt r0 hr0 p2 hp2mem (hq1 ▸ hp2c)

/-- Claim C3: when ingest_all_files returns a combined table, its row count
is the sum of the row counts of the kept (non-empty) per-file tables, its
column set is the union of their column sets, its rows are exactly the
per-file rows in file order aligned to the union (positional indexing
models the reset row index of ignore_index), and a cell of a row coming
from a table lacking that column is the null marker. -/
theorem c3_concat_shape (d : RawDir) (out : Table)
    (hok : ingest_all_files d = Except.ok out) :
    out.rows.length = ((keptTables d).map (fun t => t.rows.length)).sum
    ∧ (∀ c : String, c ∈ out.cols ↔ ∃ t ∈ keptTables d, c ∈ t.cols)
    ∧ out.rows = ((keptTables d).map
        (fun t => t.rows.map
          (fun r => extendRow t.cols r (unionCols (keptTables d))))).flatten
    ∧ (∀ t ∈ keptTables d, ∀ r ∈ t.rows,
        ∀ q ∈ (unionCols (keptTables d)).zip
            (extendRow t.cols r (unionCols (keptTables d))),
          q.1 ∉ t.cols → q.2 = Cell.na) := by
  obtain ⟨hout, _⟩ := ingest_ok_elim hok
  subst hout
  refine ⟨concatTables_rows_length _, ?_, concatTables_rows _, ?_⟩
  · intro c
    rw [concatTables_cols]
    exact mem_unionCols _ c
  · intro t _ r _ q hq hnot
    exact extendRow_eq_na q hq hnot

/-- Claim C7: every row of the combined table returned by ingest_all_files
carries non-missing values in the source_file and source_month columns
(both columns exist and no cell in them is the null marker), assuming every
parsed table is rectangular as every real DataFrame is. -/
theorem c7_provenance_nonnull (d : RawDir) (out : Table)
    (hwf : ∀ f ∈ csvFiles d, ∀ (e : Encoding) (t : Table), f.parse e = some t → WF t)
    (hok : ingest_all_files d = Except.ok out) :
    "source_file" ∈ out.cols ∧ "source_month" ∈ out.cols
    ∧ colNonNull out "source_file" ∧ colNonNull out "source_month" := by
  obtain ⟨hout, hne⟩ := ingest_ok_elim hok
  subst hout
  have hprops := kept_table_props hwf
  obtain ⟨t0, ht0⟩ := List.exists_mem_of_ne_nil _ hne
  refine ⟨?_, ?_, ?_, ?_⟩
  · rw [concatTables_cols]
    exact (mem_unionCols _ _).mpr ⟨t0, ht0, (hprops t0 ht0).2.1⟩
  · rw [concatTables_cols]
    exact (mem_unionCols _ _).mpr ⟨t0, ht0, (hprops t0 ht0).2.2.1⟩
  · exact colNonNull_concat
      (fun t ht => ⟨(hprops t ht).1, (hprops t ht).2.1, (hprops t ht).2.2.2.1⟩)
  · exact colNonNull_concat
      (fun t ht => ⟨(hprops t ht).1, (hprops t ht).2.2.1, (hprops t ht).2.2.2.2⟩)

/-!
Counterexample for the source-naming part of claim C5, and witnesses
instantiating the claim theorems at concrete inputs.
-/

/-- Claim C5, counterexample to the claim as stated: the missing-column
diagnostics are supposed to name the missing column and the source, but two
source files that differ only in their names produce byte-identical
warning-severity diagnostics (and some are emitted), so the diagnostics
cannot name the source; the full log of the first file is listed and no
entry mentions its name outside the single info line. -/
theorem c5_counterexample :
    (read_csv_file cexFileA).2.filter (fun l => l.level == LogLevel.warning)
        = (read_csv_file cexFileB).2.filter (fun l => l.level == LogLevel.warning)
    ∧ (read_csv_file cexFileA).2.filter (fun l => l.level == LogLevel.warning) ≠ []
    ∧ cexFileA.name ≠ cexFileB.name
    ∧ (read_csv_file cexFileA).2
        = [⟨LogLevel.info, "Loaded a_2023-01.csv using utf-8"⟩,
           warnMissing "noc", warnMissing "naics", warnMissing "province",
           warnMissing "city", warnMissing "vacancies", warnMissing "salary"] := by
  decide

/-- Witness for claim C1 at a file that fails under every encoding. -/
theorem c1_witness :
    (∀ e ∈ encodingList, wBad.parse e = none)
    ∧ (read_csv_file wBad = (⟨[], []⟩, [decodeFailureLog wBad])
        ∧ ((read_csv_file wBad).1).rows.length = 0) :=
  ⟨by decide, (c1_decode_never_fails wBad).1 (by decide)⟩

/-- Witness for claim C2 at a directory whose only file has an upper-case
extension, so the case-sensitive glob matches nothing. -/
theorem c2_witness :
    (wDirCaps.dirExists = true ∧ csvFiles wDirCaps = [])
    ∧ ingest_all_files wDirCaps
        = Except.error (IngestError.discoveryError "No CSV files found in data/raw.") :=
  ⟨⟨rfl, rfl⟩, (c2_error_kinds wDirCaps).2.1 rfl rfl⟩

/-- Witness for claim C3 at the two-file directory. -/
theorem c3_witness :
    ingest_all_files wDir = Except.ok (concatTables (keptTables wDir))
    ∧ (concatTables (keptTables wDir)).rows.length
        = ((keptTables wDir).map (fun t => t.rows.length)).sum
    ∧ (concatTables (keptTables wDir)).rows.length = 3 :=
  ⟨by decide,
   (c3_concat_shape wDir (concatTables (keptTables wDir)) (by decide)).1,
   by decide⟩

/-- Witness for claim C4 at a file that parses only under the last
candidate encoding. -/
theorem c4_witness :
    (wFile2.parse Encoding.utf8 = none ∧ wFile2.parse Encoding.utf16 = none
     ∧ wFile2.parse Encoding.cp1252 = none
     ∧ wFile2.parse Encoding.latin1 = some wTable2)
    ∧ read_csv_file wFile2 = decodeSuccess wFile2 wTable2 Encoding.latin1 :=
  ⟨⟨rfl, rfl, rfl, rfl⟩,
   (c4_encoding_order wFile2).2.2.2.1 wTable2 rfl rfl rfl rfl⟩

/-- Witness for claim C5 at the first witness table, for the required
column city, which is absent from it. -/
theorem c5_witness :
    ("city" ∈ REQUIRED_COLUMNS ∧ "city" ∉ wTable1.cols.map normalizeName)
    ∧ "city" ∈ missingOf (wTable1.cols.map normalizeName) REQUIRED_COLUMNS :=
  ⟨⟨by decide, by decide⟩,
   (c5_normalize_fills_required wTable1).2.2.2.2.1 "city" (by decide) (by decide)⟩

/-- Witness for claim C6 at a stem holding two qualifying tokens: the
leftmost wins. -/
theorem c6_witness :
    (splitOnChar '_' wFileC6.stem.data
        = ["report".data, "2023-01".data, "final-x".data]
     ∧ isMonthToken "2023-01".data = true)
    ∧ extract_month_from_filename wFileC6 = ("2023-01", []) := by
  refine ⟨⟨by decide, by decide⟩, ?_⟩
  have h := (c6_extract_first_token wFileC6).1 ["report".data] "2023-01".data
    ["final-x".data] (by decide) (by decide) (by decide)
  exact h

/-- Rectangularity of every parse result of the two-file witness
directory. -/
lemma wDir_wf :
    ∀ f ∈ csvFiles wDir, ∀ (e : Encoding) (t : Table),
      f.parse e = some t → WF t := by
  intro f hf e t hpt
  have hcsv : csvFiles wDir = [wFile1, wFile2] := rfl
  rw [hcsv] at hf
  rcases List.mem_cons.mp hf with h | h
  · subst h
    cases e with
    | utf8 =>
      injection hpt with h2
      rw [← h2]
      exact (by decide : ∀ r ∈ wTable1.rows, r.length = wTable1.cols.length)
    | utf16 => exact Option.noConfusion hpt
    | cp1252 => exact Option.noConfusion hpt
    | latin1 => exact Option.noConfusion hpt
  · have h2 : f = wFile2 := by simpa using h
    subst h2
    cases e with
    | utf8 => exact Option.noConfusion hpt
    | utf16 => exact Option.noConfusion hpt
    | cp1252 => exact Option.noConfusion hpt
    | latin1 =>
      injection hpt with h2
      rw [← h2]
      exact (by decide : ∀ r ∈ wTable2.rows, r.length = wTable2.cols.length)

/-- Witness for claim C7 at the two-file directory. -/
theorem c7_witness :
    ingest_all_files wDir = Except.ok (concatTables (keptTables wDir))
    ∧ ("source_file" ∈ (concatTables (keptTables wDir)).cols
        ∧ "source_month" ∈ (concatTables (keptTables wDir)).cols
        ∧ colNonNull (concatTables (keptTables wDir)) "source_file"
        ∧ colNonNull (concatTables (keptTables wDir)) "source_month") :=
  ⟨by decide,
   c7_provenance_nonnull wDir (concatTables (keptTables wDir)) wDir_wf (by decide)⟩

/-- Witness for claim C9 at a directory holding one header-only file. -/
theorem c9_witness :
    (firstParse wFileHdr = some (Encoding.utf8, wHdr) ∧ wHdr.rows = [])
    ∧ (((read_csv_file wFileHdr).1).isEmpty = true
        ∧ ∀ l ∈ (read_csv_file wFileHdr).2, l.level ≠ LogLevel.error)
    ∧ ingest_all_files wDirHdr
        = Except.error (IngestError.noValidDataError
            "No datasets were loaded. Check file encodings or file integrity.") :=
  ⟨⟨by decide, rfl⟩,
   c9_empty_decode_excluded.1 wFileHdr Encoding.utf8 wHdr (by decide) rfl,
   c9_empty_decode_excluded.2 wDirHdr rfl (fun h => List.noConfusion h) (by decide)⟩

end JobBank
